import Mathlib

/-!
# Verification of the chuk-leaderboard rating systems

A shallow embedding, over the real numbers, of the rating-system core of the
chuk-leaderboard repository:

* `EloRatingSystem` — `chuk_leaderboard/rating_systems/elo.py`
* `Glicko2RatingSystem` — `chuk_leaderboard/rating_systems/glicko2.py`
* `PointsBasedRankingSystem` — `chuk_leaderboard/rating_systems/points_based.py`
* `get_rating_system` — `chuk_leaderboard/rating_systems/registry.py`

Python floats are modelled as real numbers; each definition mirrors the body
of the corresponding Python function, branch for branch.  Theorems about the
spec's claimed properties follow the definitions.
-/

noncomputable section

open Real

/-! ## Elo (`elo.py`)

The class holds `k_factor` and `default_rating`; `__init__` stores them with
no validation. -/

structure EloRatingSystem where
  k_factor : ℝ
  default_rating : ℝ

/-- `EloRatingSystem.__init__` (`elo.py` lines 18–33): stores both
configuration values unchanged. -/
def EloRatingSystem.init (k_factor : ℝ) (default_rating : ℝ) : EloRatingSystem :=
  ⟨k_factor, default_rating⟩

/-- `EloRatingSystem.expected_outcome` (`elo.py` lines 78–89):
`1.0 / (1.0 + math.pow(10, (rating2 - rating1) / 400.0))`. -/
def EloRatingSystem.expected_outcome (_sys : EloRatingSystem) (rating1 rating2 : ℝ) : ℝ :=
  1 / (1 + (10 : ℝ) ^ ((rating2 - rating1) / 400))

/-- `EloRatingSystem.calculate_rating` (`elo.py` lines 35–61).  The loop
accumulates into `new_rating`, but every call to `expected_outcome` passes the
*original* `current_rating`, not the running `new_rating`. -/
def EloRatingSystem.calculate_rating (sys : EloRatingSystem) (current_rating : ℝ)
    (outcomes : List (ℝ × ℝ)) : ℝ :=
  if outcomes = [] then current_rating
  else
    outcomes.foldl
      (fun new_rating o =>
        new_rating + sys.k_factor * (o.2 - sys.expected_outcome current_rating o.1))
      current_rating

/-- Modelled from the spec's words (§4.3): "sequentially folds every outcome
into the *same* running rating: for each `(opp, result)`,
`r += k_factor * (result - expected_outcome(r, opp))`", with "later outcomes
use the updated rating from earlier ones within the same call".  Stated for
comparison with `EloRatingSystem.calculate_rating`, the code's behaviour. -/
def eloSequentialFold (sys : EloRatingSystem) (r : ℝ) (outcomes : List (ℝ × ℝ)) : ℝ :=
  outcomes.foldl (fun r o => r + sys.k_factor * (o.2 - sys.expected_outcome r o.1)) r

/-! ### Helper lemmas -/

/-- Folding `(· + f ·)` over a list adds the mapped sum to the seed. -/
lemma foldl_add_map_sum (f : α → ℝ) (l : List α) (init : ℝ) :
    l.foldl (fun a o => a + f o) init = init + (l.map f).sum := by
  induction l generalizing init with
  | nil => simp
  | cons h t ih => simp [ih, add_assoc]

/-- The logistic identity behind every `expected_outcome` symmetry:
for positive `a`, `1/(1+a) + 1/(1+a⁻¹) = 1`. -/
lemma one_div_one_add_add_inv (a : ℝ) (ha : 0 < a) :
    1 / (1 + a) + 1 / (1 + a⁻¹) = 1 := by
  have h1 : (1 : ℝ) + a ≠ 0 := by positivity
  have h2 : a ≠ 0 := ne_of_gt ha
  field_simp
  ring

lemma elo_expected_pos (sys : EloRatingSystem) (r1 r2 : ℝ) :
    0 < sys.expected_outcome r1 r2 := by
  have : (0 : ℝ) < (10 : ℝ) ^ ((r2 - r1) / 400) := rpow_pos_of_pos (by norm_num) _
  unfold EloRatingSystem.expected_outcome
  positivity

lemma elo_expected_inv (sys : EloRatingSystem) (r1 r2 : ℝ) :
    (10 : ℝ) ^ ((r1 - r2) / 400) = ((10 : ℝ) ^ ((r2 - r1) / 400))⁻¹ := by
  rw [← rpow_neg (by norm_num : (0:ℝ) ≤ 10)]
  ring_nf

/-- `expected_outcome r r = 1/2`: a player against an equal rating. -/
lemma elo_expected_self (sys : EloRatingSystem) (r : ℝ) :
    sys.expected_outcome r r = 1 / 2 := by
  unfold EloRatingSystem.expected_outcome
  norm_num

/-! ### C3 -/

lemma elo_calc_batch (sys : EloRatingSystem) (r : ℝ) (outcomes : List (ℝ × ℝ)) :
    sys.calculate_rating r outcomes =
      r + (outcomes.map (fun o => sys.k_factor * (o.2 - sys.expected_outcome r o.1))).sum := by
  unfold EloRatingSystem.calculate_rating
  rcases eq_or_ne outcomes [] with h | h
  · simp [h]
  · rw [if_neg h, foldl_add_map_sum]

/-- C3 (amended): `EloRatingSystem.calculate_rating` is a batch update — it
returns `r + Σ k·(result_j − expected_outcome(r, opp_j))`, where the expected
score of every outcome is computed from the original rating `r` passed into
the call, never from the running rating. -/
theorem elo_batch_update (sys : EloRatingSystem) (r : ℝ) (outcomes : List (ℝ × ℝ)) :
    sys.calculate_rating r outcomes =
      r + (outcomes.map (fun o => sys.k_factor * (o.2 - sys.expected_outcome r o.1))).sum :=
  elo_calc_batch sys r outcomes

/-- C3 (counterexample): at K = 32, rating 1500, two wins against 1500, the
code returns 1532 (both expected scores computed from 1500), while the spec's
sequential fold returns strictly less (its second expected score, computed
from the updated 1516, exceeds 1/2). -/
theorem elo_sequential_fold_cex :
    (EloRatingSystem.init 32 1500).calculate_rating 1500 [(1500, 1), (1500, 1)] ≠
      eloSequentialFold (EloRatingSystem.init 32 1500) 1500 [(1500, 1), (1500, 1)] := by
  have hcode : (EloRatingSystem.init 32 1500).calculate_rating 1500 [(1500, 1), (1500, 1)] =
      1532 := by
    rw [elo_calc_batch]
    simp [elo_expected_self, EloRatingSystem.init]
    norm_num
  have hE : (EloRatingSystem.init 32 1500).expected_outcome 1516 1500 > 1 / 2 := by
    unfold EloRatingSystem.expected_outcome
    have hlt : (10 : ℝ) ^ ((1500 - 1516 : ℝ) / 400) < 1 := by
      apply rpow_lt_one_of_one_lt_of_neg (by norm_num) (by norm_num)
    have hpos : (0 : ℝ) < (10 : ℝ) ^ ((1500 - 1516 : ℝ) / 400) :=
      rpow_pos_of_pos (by norm_num) _
    rw [gt_iff_lt, lt_div_iff (by linarith)]
    linarith
  have hspec : eloSequentialFold (EloRatingSystem.init 32 1500) 1500 [(1500, 1), (1500, 1)] <
      1532 := by
    unfold eloSequentialFold
    simp [elo_expected_self, EloRatingSystem.init]
    norm_num
    have : (EloRatingSystem.init 32 1500).expected_outcome 1516 1500 > 1 / 2 := hE
    simp [EloRatingSystem.init] at this
    linarith
  rw [hcode]
  exact fun h => absurd (h ▸ hspec) (lt_irrefl _)

/-! ## Glicko-2 (`glicko2.py`)

`__init__` stores `tau` with no validation and fixes the scale constants. -/

structure Glicko2RatingSystem where
  tau : ℝ
  scale_factor : ℝ
  default_rating : ℝ
  default_rd : ℝ
  default_vol : ℝ

/-- `Glicko2RatingSystem.__init__` (`glicko2.py` lines 22–37). -/
def Glicko2RatingSystem.init (tau : ℝ) : Glicko2RatingSystem :=
  ⟨tau, 173.7178, 1500, 350, 0.06⟩

/-- One summand of `v_sum` from the loop of `calculate_rating`
(`glicko2.py` lines 68–80): `g**2 * E * (1 - E)` for one outcome
`(opp_r, opp_rd, result)`. -/
def Glicko2RatingSystem.vTerm (sys : Glicko2RatingSystem) (mu : ℝ) (o : ℝ × ℝ × ℝ) : ℝ :=
  let opp_mu := (o.1 - sys.default_rating) / sys.scale_factor
  let opp_phi := o.2.1 / sys.scale_factor
  let g := 1 / Real.sqrt (1 + 3 * opp_phi ^ 2 / Real.pi ^ 2)
  let E := 1 / (1 + Real.exp (-g * (mu - opp_mu)))
  g ^ 2 * E * (1 - E)

/-- One summand of `delta_sum` from the same loop: `g * (result - E)`. -/
def Glicko2RatingSystem.deltaTerm (sys : Glicko2RatingSystem) (mu : ℝ) (o : ℝ × ℝ × ℝ) : ℝ :=
  let opp_mu := (o.1 - sys.default_rating) / sys.scale_factor
  let opp_phi := o.2.1 / sys.scale_factor
  let g := 1 / Real.sqrt (1 + 3 * opp_phi ^ 2 / Real.pi ^ 2)
  let E := 1 / (1 + Real.exp (-g * (mu - opp_mu)))
  g * (o.2.2 - E)

/-- The accumulated `v_sum` of the loop. -/
def Glicko2RatingSystem.vSum (sys : Glicko2RatingSystem) (mu : ℝ)
    (outcomes : List (ℝ × ℝ × ℝ)) : ℝ :=
  (outcomes.map (sys.vTerm mu)).sum

/-- The accumulated `delta_sum` of the loop. -/
def Glicko2RatingSystem.deltaSum (sys : Glicko2RatingSystem) (mu : ℝ)
    (outcomes : List (ℝ × ℝ × ℝ)) : ℝ :=
  (outcomes.map (sys.deltaTerm mu)).sum

/-- `Glicko2RatingSystem.calculate_rating` (`glicko2.py` lines 39–128).
The locals `a` and `x` computed on lines 91–105 are never read by the rest of
the function (the volatility actually returned comes from the fixed
±ratio adjustment on lines 107–115), so they are not bound here. -/
def Glicko2RatingSystem.calculate_rating (sys : Glicko2RatingSystem)
    (current_rating : ℝ × ℝ × ℝ) (outcomes : List (ℝ × ℝ × ℝ)) : ℝ × ℝ × ℝ :=
  let rating := current_rating.1
  let rd := current_rating.2.1
  let vol := current_rating.2.2
  if outcomes = [] then
    (rating, min (Real.sqrt (rd ^ 2 + vol ^ 2)) sys.default_rd, vol)
  else
    let mu := (rating - sys.default_rating) / sys.scale_factor
    let phi := rd / sys.scale_factor
    let v_sum := sys.vSum mu outcomes
    let delta_sum := sys.deltaSum mu outcomes
    if v_sum = 0 then (rating, rd, vol)
    else
      let v := 1 / v_sum
      let delta := v * delta_sum
      let adjustment : ℝ := if |delta| > phi + v then 1.2 else 0.9
      let new_vol := max 0.01 (min (vol * adjustment) 0.1)
      let phi_star := Real.sqrt (phi ^ 2 + new_vol ^ 2)
      let new_phi := 1 / Real.sqrt (1 / phi_star ^ 2 + 1 / v)
      let new_mu := mu + new_phi ^ 2 * delta_sum
      (sys.scale_factor * new_mu + sys.default_rating, sys.scale_factor * new_phi, new_vol)

/-- `Glicko2RatingSystem.expected_outcome` (`glicko2.py` lines 130–157). -/
def Glicko2RatingSystem.expected_outcome (sys : Glicko2RatingSystem)
    (rating1 rating2 : ℝ × ℝ) : ℝ :=
  let mu1 := (rating1.1 - sys.default_rating) / sys.scale_factor
  let phi2 := rating2.2 / sys.scale_factor
  let mu2 := (rating2.1 - sys.default_rating) / sys.scale_factor
  let g := 1 / Real.sqrt (1 + 3 * phi2 ^ 2 / Real.pi ^ 2)
  1 / (1 + Real.exp (-g * (mu1 - mu2)))

/-! ### Positivity of the variance accumulator -/

lemma glicko2_vTerm_pos (sys : Glicko2RatingSystem) (mu : ℝ) (o : ℝ × ℝ × ℝ) :
    0 < sys.vTerm mu o := by
  unfold Glicko2RatingSystem.vTerm
  have hpi : (0 : ℝ) < Real.pi ^ 2 := by positivity
  set opp_phi := o.2.1 / sys.scale_factor
  have hX : (0 : ℝ) < 1 + 3 * opp_phi ^ 2 / Real.pi ^ 2 := by positivity
  have hg : (0 : ℝ) < 1 / Real.sqrt (1 + 3 * opp_phi ^ 2 / Real.pi ^ 2) := by
    have := Real.sqrt_pos.mpr hX
    positivity
  set g := 1 / Real.sqrt (1 + 3 * opp_phi ^ 2 / Real.pi ^ 2) with hgdef
  set e := Real.exp (-g * (mu - (o.1 - sys.default_rating) / sys.scale_factor)) with hedef
  have he : 0 < e := Real.exp_pos _
  have hE0 : (0 : ℝ) < 1 / (1 + e) := by positivity
  have hE1 : 1 / (1 + e) < 1 := by
    rw [div_lt_one (by linarith)]
    linarith
  have : (0 : ℝ) < 1 - 1 / (1 + e) := by linarith
  positivity

lemma glicko2_vSum_pos (sys : Glicko2RatingSystem) (mu : ℝ)
    {outcomes : List (ℝ × ℝ × ℝ)} (h : outcomes ≠ []) :
    0 < sys.vSum mu outcomes := by
  unfold Glicko2RatingSystem.vSum
  match outcomes, h with
  | o :: rest, _ =>
    simp only [List.map_cons, List.sum_cons]
    have h1 : 0 < sys.vTerm mu o := glicko2_vTerm_pos sys mu o
    have h2 : 0 ≤ (rest.map (sys.vTerm mu)).sum :=
      List.sum_nonneg fun x hx => by
        obtain ⟨o', _, rfl⟩ := List.mem_map.mp hx
        exact le_of_lt (glicko2_vTerm_pos sys mu o')
    linarith

/-- With at least one outcome the code always reaches the volatility
adjustment, and the returned volatility is the clamped fixed-ratio value. -/
lemma glicko2_newVol_cases (sys : Glicko2RatingSystem) (r rd vol : ℝ)
    {outcomes : List (ℝ × ℝ × ℝ)} (h : outcomes ≠ []) :
    (sys.calculate_rating (r, rd, vol) outcomes).2.2 = max 0.01 (min (vol * 0.9) 0.1) ∨
      (sys.calculate_rating (r, rd, vol) outcomes).2.2 = max 0.01 (min (vol * 1.2) 0.1) := by
  have hv : sys.vSum ((r - sys.default_rating) / sys.scale_factor) outcomes ≠ 0 :=
    ne_of_gt (glicko2_vSum_pos sys _ h)
  unfold Glicko2RatingSystem.calculate_rating
  simp only [if_neg h, if_neg hv]
  by_cases hc :
      |1 / sys.vSum ((r - sys.default_rating) / sys.scale_factor) outcomes *
          sys.deltaSum ((r - sys.default_rating) / sys.scale_factor) outcomes| >
        rd / sys.scale_factor +
          1 / sys.vSum ((r - sys.default_rating) / sys.scale_factor) outcomes
  · right
    simp only [if_pos hc]
  · left
    simp only [if_neg hc]

/-! ### C5 -/

/-- C5: with an empty outcome list, `calculate_rating` returns exactly
`(r, min (sqrt (RD² + σ²)) 350, σ)` — rating and volatility unchanged,
deviation inflated and capped at the 350 ceiling
(`glicko2.py` lines 55–58). -/
theorem glicko2_empty_outcomes (tau r rd vol : ℝ) :
    (Glicko2RatingSystem.init tau).calculate_rating (r, rd, vol) [] =
      (r, min (Real.sqrt (rd ^ 2 + vol ^ 2)) 350, vol) := by
  simp [Glicko2RatingSystem.calculate_rating, Glicko2RatingSystem.init]

/-! ### C2 -/

/-- C2: for every call with at least one outcome, the returned volatility is
`max 0.01 (min (σ·0.9) 0.1)` or `max 0.01 (min (σ·1.2) 0.1)` — a clamped
fixed-ratio adjustment of the old volatility, not the root of the Glicko-2
volatility equation (`glicko2.py` lines 107–115). -/
theorem glicko2_vol_is_fixed_ratio (tau r rd vol : ℝ) (outcomes : List (ℝ × ℝ × ℝ))
    (h : outcomes ≠ []) :
    ((Glicko2RatingSystem.init tau).calculate_rating (r, rd, vol) outcomes).2.2 =
        max 0.01 (min (vol * 0.9) 0.1) ∨
      ((Glicko2RatingSystem.init tau).calculate_rating (r, rd, vol) outcomes).2.2 =
        max 0.01 (min (vol * 1.2) 0.1) := by
  rcases glicko2_newVol_cases (Glicko2RatingSystem.init tau) r rd vol h with hc | hc
  · exact Or.inl hc
  · exact Or.inr hc

/-- C2 witness: the fixed-ratio theorem applied at a concrete call. -/
theorem glicko2_vol_is_fixed_ratio_witness :
    ([((1500 : ℝ), (350 : ℝ), (1 : ℝ))] ≠ ([] : List (ℝ × ℝ × ℝ))) ∧
      (((Glicko2RatingSystem.init 0.5).calculate_rating (1500, 350, 0.06)
            [(1500, 350, 1)]).2.2 = max 0.01 (min ((0.06 : ℝ) * 0.9) 0.1) ∨
        ((Glicko2RatingSystem.init 0.5).calculate_rating (1500, 350, 0.06)
            [(1500, 350, 1)]).2.2 = max 0.01 (min ((0.06 : ℝ) * 1.2) 0.1)) :=
  ⟨by simp,
    glicko2_vol_is_fixed_ratio 0.5 1500 350 0.06 [(1500, 350, 1)] (by simp)⟩

/-! ### C1 -/

/-- C1: on the canonical Glicko-2 worked example — state `(1500, 200, 0.06)`,
outcomes `(1400, 30, 1)`, `(1550, 100, 0)`, `(1700, 300, 0)`, `tau = 0.5` —
the volatility the code returns (`0.054 = 0.06 × 0.9`, or `0.072` on the
other branch of the heuristic) misses the canonical `0.05999` by far more
than the claimed `±0.0001` tolerance. -/
theorem glicko2_reference_example_vol_off :
    0.0001 <
      |((Glicko2RatingSystem.init 0.5).calculate_rating (1500, 200, 0.06)
          [(1400, 30, 1), (1550, 100, 0), (1700, 300, 0)]).2.2 - 0.05999| := by
  rcases glicko2_newVol_cases (Glicko2RatingSystem.init 0.5) 1500 200 0.06
      (by simp : [((1400 : ℝ), (30 : ℝ), (1 : ℝ)), (1550, 100, 0), (1700, 300, 0)] ≠ []) with
    hc | hc
  · rw [hc]
    have h1 : max 0.01 (min ((0.06 : ℝ) * 0.9) 0.1) = 0.054 := by norm_num
    rw [h1]
    rw [show (0.054 : ℝ) - 0.05999 = -0.00599 by norm_num, abs_neg, abs_of_pos (by norm_num)]
    norm_num
  · rw [hc]
    have h1 : max 0.01 (min ((0.06 : ℝ) * 1.2) 0.1) = 0.072 := by norm_num
    rw [h1]
    rw [show (0.072 : ℝ) - 0.05999 = 0.01201 by norm_num, abs_of_pos (by norm_num)]
    norm_num

/-! ### C4 -/

lemma aux_scale_sqrt (s rd nv : ℝ) (hs : 0 < s) :
    s * Real.sqrt ((rd / s) ^ 2 + nv ^ 2) = Real.sqrt (rd ^ 2 + (s * nv) ^ 2) := by
  have h1 : Real.sqrt (rd ^ 2 + (s * nv) ^ 2) =
      Real.sqrt (s ^ 2 * ((rd / s) ^ 2 + nv ^ 2)) := by
    congr 1
    field_simp
    ring
  rw [h1, Real.sqrt_mul (sq_nonneg s), Real.sqrt_sq hs.le]

/-- The Glicko-2 step-6 deviation `1/sqrt(1/φ*² + 1/v)` is strictly below
`φ* = sqrt(φ² + σ'²)` whenever the variance accumulator is positive. -/
lemma aux_newPhi_lt (p vs : ℝ) (hp : 0 < p) (hvs : 0 < vs) :
    1 / Real.sqrt (1 / Real.sqrt p ^ 2 + 1 / (1 / vs)) < Real.sqrt p := by
  rw [Real.sq_sqrt hp.le, one_div_one_div]
  have hq : 1 / p < 1 / p + vs := lt_add_of_pos_right _ hvs
  have h2 : Real.sqrt (1 / p) < Real.sqrt (1 / p + vs) := Real.sqrt_lt_sqrt (by positivity) hq
  have h3 : (Real.sqrt p)⁻¹ < Real.sqrt (1 / p + vs) := by
    rw [← Real.sqrt_inv, inv_eq_one_div]
    exact h2
  have h4 : 0 < (Real.sqrt p)⁻¹ := by
    have := Real.sqrt_pos.mpr hp
    positivity
  calc 1 / Real.sqrt (1 / p + vs) < 1 / (Real.sqrt p)⁻¹ :=
        one_div_lt_one_div_of_lt h4 h3
    _ = Real.sqrt p := by rw [one_div, inv_inv]

/-- C4 (amended): with an empty outcome list and `0 < RD ≤ 350`, `σ > 0`, the
deviation strictly increases, except at the 350 ceiling where it stays; with
at least one outcome the returned deviation is strictly below the inflated
deviation `sqrt(RD² + (173.7178·σ')²)` (where `σ'` is the returned
volatility) — but, contrary to the claim, not necessarily below RD itself. -/
theorem glicko2_deviation_amended (tau r rd vol : ℝ) :
    (0 < rd → rd ≤ 350 → 0 < vol →
      (rd < 350 →
          rd < ((Glicko2RatingSystem.init tau).calculate_rating (r, rd, vol) []).2.1) ∧
        (rd = 350 →
          ((Glicko2RatingSystem.init tau).calculate_rating (r, rd, vol) []).2.1 = 350)) ∧
      (∀ outcomes : List (ℝ × ℝ × ℝ), outcomes ≠ [] →
        ((Glicko2RatingSystem.init tau).calculate_rating (r, rd, vol) outcomes).2.1 <
          Real.sqrt (rd ^ 2 +
            (173.7178 *
              ((Glicko2RatingSystem.init tau).calculate_rating (r, rd, vol) outcomes).2.2) ^ 2)) := by
  constructor
  · intro hrd hrd350 hvol
    have hkey : ((Glicko2RatingSystem.init tau).calculate_rating (r, rd, vol) []).2.1 =
        min (Real.sqrt (rd ^ 2 + vol ^ 2)) 350 := by
      simp [Glicko2RatingSystem.calculate_rating, Glicko2RatingSystem.init]
    have hsq : rd < Real.sqrt (rd ^ 2 + vol ^ 2) := by
      have h1 : rd ^ 2 < rd ^ 2 + vol ^ 2 :=
        lt_add_of_pos_right _ (by positivity)
      have h2 : Real.sqrt (rd ^ 2) < Real.sqrt (rd ^ 2 + vol ^ 2) :=
        Real.sqrt_lt_sqrt (sq_nonneg rd) h1
      rwa [Real.sqrt_sq hrd.le] at h2
    constructor
    · intro hlt
      rw [hkey]
      exact lt_min hsq hlt
    · intro heq
      subst heq
      rw [hkey, min_eq_right]
      exact hsq.le
  · intro outcomes h
    have hvs : 0 < (Glicko2RatingSystem.init tau).vSum
        ((r - (Glicko2RatingSystem.init tau).default_rating) /
          (Glicko2RatingSystem.init tau).scale_factor) outcomes :=
      glicko2_vSum_pos _ _ h
    have hvne : (Glicko2RatingSystem.init tau).vSum
        ((r - (Glicko2RatingSystem.init tau).default_rating) /
          (Glicko2RatingSystem.init tau).scale_factor) outcomes ≠ 0 := ne_of_gt hvs
    unfold Glicko2RatingSystem.calculate_rating
    simp only [if_neg h, if_neg hvne]
    set vs := (Glicko2RatingSystem.init tau).vSum
        ((r - (Glicko2RatingSystem.init tau).default_rating) /
          (Glicko2RatingSystem.init tau).scale_factor) outcomes with hvsdef
    set ds := (Glicko2RatingSystem.init tau).deltaSum
        ((r - (Glicko2RatingSystem.init tau).default_rating) /
          (Glicko2RatingSystem.init tau).scale_factor) outcomes with hdsdef
    set c := (if |1 / vs * ds| > rd / (Glicko2RatingSystem.init tau).scale_factor + 1 / vs
        then (1.2 : ℝ) else 0.9) with hcdef
    set nv := max 0.01 (min (vol * c) 0.1) with hnvdef
    have hnv : (0 : ℝ) < nv :=
      lt_of_lt_of_le (by norm_num) (le_max_left _ _)
    have hs : (0 : ℝ) < (Glicko2RatingSystem.init tau).scale_factor := by
      simp [Glicko2RatingSystem.init]
      norm_num
    have hp : (0 : ℝ) <
        (rd / (Glicko2RatingSystem.init tau).scale_factor) ^ 2 + nv ^ 2 := by positivity
    have hmain :
        (Glicko2RatingSystem.init tau).scale_factor *
            (1 / Real.sqrt (1 / Real.sqrt
              ((rd / (Glicko2RatingSystem.init tau).scale_factor) ^ 2 + nv ^ 2) ^ 2 +
                1 / (1 / vs))) <
          Real.sqrt (rd ^ 2 + ((Glicko2RatingSystem.init tau).scale_factor * nv) ^ 2) := by
      rw [← aux_scale_sqrt _ rd nv hs]
      exact mul_lt_mul_of_pos_left (aux_newPhi_lt _ vs hp hvs) hs
    have hscale : (Glicko2RatingSystem.init tau).scale_factor = (173.7178 : ℝ) := by
      simp [Glicko2RatingSystem.init]
    simpa [hscale] using hmain

/-- Closed form of the returned deviation on the non-degenerate path. -/
lemma glicko2_rd_eq (sys : Glicko2RatingSystem) (r rd vol : ℝ)
    (outcomes : List (ℝ × ℝ × ℝ)) (h : outcomes ≠ [])
    (hvs : sys.vSum ((r - sys.default_rating) / sys.scale_factor) outcomes ≠ 0) :
    (sys.calculate_rating (r, rd, vol) outcomes).2.1 =
      sys.scale_factor *
        (1 / Real.sqrt
          (1 / Real.sqrt ((rd / sys.scale_factor) ^ 2 +
              (max 0.01 (min (vol *
                (if |1 / sys.vSum ((r - sys.default_rating) / sys.scale_factor) outcomes *
                      sys.deltaSum ((r - sys.default_rating) / sys.scale_factor) outcomes| >
                    rd / sys.scale_factor +
                      1 / sys.vSum ((r - sys.default_rating) / sys.scale_factor) outcomes
                  then (1.2 : ℝ) else 0.9)) 0.1)) ^ 2) ^ 2 +
            1 / (1 / sys.vSum ((r - sys.default_rating) / sys.scale_factor) outcomes))) := by
  unfold Glicko2RatingSystem.calculate_rating
  simp only [if_neg h, if_neg hvs]

theorem glicko2_rd_decrease_cex :
    200 < ((Glicko2RatingSystem.init 0.5).calculate_rating (1500, 200, 0.06)
      [(1500, 100000, 1)]).2.1 := by
  set X : ℝ := 1 + 750000000000000000 / 754446850921 / Real.pi ^ 2 with hXdef
  have hX0 : (0:ℝ) < X := by rw [hXdef]; positivity
  have hX1 : (1:ℝ) ≤ X := by
    rw [hXdef]
    have : (0:ℝ) ≤ 750000000000000000 / 754446850921 / Real.pi ^ 2 := by positivity
    linarith
  have hXlb : (25000:ℝ) ≤ X := by
    rw [hXdef]
    have hpi2 : Real.pi ^ 2 < 10 := by
      have h := Real.pi_lt_315
      nlinarith [Real.pi_pos]
    have hpi2pos : (0:ℝ) < Real.pi ^ 2 := by positivity
    have h1 : (750000000000000000 : ℝ) / 754446850921 / 10 ≤
        750000000000000000 / 754446850921 / Real.pi ^ 2 := by
      apply div_le_div_of_nonneg_left (by norm_num) hpi2pos hpi2.le
    have h2 : (25000:ℝ) ≤ 750000000000000000 / 754446850921 / 10 := by norm_num
    linarith
  have hsx : (1:ℝ) ≤ Real.sqrt X := by
    rw [show (1:ℝ) = Real.sqrt 1 by simp]
    exact Real.sqrt_le_sqrt hX1
  have hsx0 : (0:ℝ) < Real.sqrt X := Real.sqrt_pos.mpr hX0
  have hvs_eq :
      (Glicko2RatingSystem.init 0.5).vSum
          (((1500:ℝ) - (Glicko2RatingSystem.init 0.5).default_rating) /
            (Glicko2RatingSystem.init 0.5).scale_factor) [(1500, 100000, 1)] =
        (4 * X)⁻¹ := by
    rw [hXdef]
    unfold Glicko2RatingSystem.vSum Glicko2RatingSystem.vTerm
    simp [Glicko2RatingSystem.init]
    norm_num
    rw [Real.sq_sqrt (by positivity :
      (0:ℝ) ≤ 1 + 750000000000000000 / 754446850921 / Real.pi ^ 2)]
    ring
  have hds_eq :
      (Glicko2RatingSystem.init 0.5).deltaSum
          (((1500:ℝ) - (Glicko2RatingSystem.init 0.5).default_rating) /
            (Glicko2RatingSystem.init 0.5).scale_factor) [(1500, 100000, 1)] =
        (2 * Real.sqrt X)⁻¹ := by
    rw [hXdef]
    unfold Glicko2RatingSystem.deltaSum Glicko2RatingSystem.deltaTerm
    simp [Glicko2RatingSystem.init]
    norm_num
  have hvs_ne :
      (Glicko2RatingSystem.init 0.5).vSum
          (((1500:ℝ) - (Glicko2RatingSystem.init 0.5).default_rating) /
            (Glicko2RatingSystem.init 0.5).scale_factor) [(1500, 100000, 1)] ≠ 0 := by
    rw [hvs_eq]
    positivity
  clear_value X
  rw [glicko2_rd_eq _ _ _ _ _ (by simp) hvs_ne, hvs_eq, hds_eq]
  have hsf : (Glicko2RatingSystem.init 0.5).scale_factor = 173.7178 := rfl
  rw [hsf]
  have hss : Real.sqrt X * Real.sqrt X = X := Real.mul_self_sqrt hX0.le
  have h4X : (1:ℝ) / (4 * X)⁻¹ = 4 * X := by rw [one_div, inv_inv]
  have hdelta : (1:ℝ) / (4 * X)⁻¹ * (2 * Real.sqrt X)⁻¹ = 2 * Real.sqrt X := by
    rw [h4X]
    field_simp
    linarith [hss]
  have hcond : ¬(|1 / (4 * X)⁻¹ * (2 * Real.sqrt X)⁻¹| >
      (200:ℝ) / 173.7178 + 1 / (4 * X)⁻¹) := by
    rw [hdelta, h4X, abs_of_pos (by linarith [hsx0] : (0:ℝ) < 2 * Real.sqrt X)]
    push_neg
    have ht : Real.sqrt X ≤ X := by
      nlinarith [mul_le_mul_of_nonneg_left hsx hsx0.le, hss]
    linarith [hsx0, ht, hX0, show (0:ℝ) < 200 / 173.7178 by norm_num]
  rw [if_neg hcond]
  have hnv : (1e-2 ⊔ ((6e-2:ℝ) * 0.9) ⊓ 0.1) = 0.054 := by
    rw [min_def, max_def]
    norm_num
  rw [hnv]
  have h5 : (1:ℝ) / (1 / (4 * X)⁻¹) = (4 * X)⁻¹ := by rw [h4X, one_div]
  rw [h5]
  have hsq2 : Real.sqrt (((200:ℝ) / 173.7178) ^ 2 + (0.054:ℝ) ^ 2) ^ 2 =
      ((200:ℝ) / 173.7178) ^ 2 + (0.054:ℝ) ^ 2 := Real.sq_sqrt (by positivity)
  rw [hsq2]
  have hinvX : (4 * X)⁻¹ ≤ (100000:ℝ)⁻¹ := by
    apply inv_le_inv_of_le (by norm_num)
    linarith
  have hq0 : (0:ℝ) < 1 / (((200:ℝ) / 173.7178) ^ 2 + (0.054:ℝ) ^ 2) + (4 * X)⁻¹ :=
    add_pos (by positivity) (inv_pos.mpr (by linarith))
  have hq_lt : 1 / (((200:ℝ) / 173.7178) ^ 2 + (0.054:ℝ) ^ 2) + (4 * X)⁻¹ <
      ((173.7178:ℝ) / 200) ^ 2 := by
    have hr : 1 / (((200:ℝ) / 173.7178) ^ 2 + (0.054:ℝ) ^ 2) + (100000:ℝ)⁻¹ <
        ((173.7178:ℝ) / 200) ^ 2 := by norm_num
    linarith
  have h7 : Real.sqrt (1 / (((200:ℝ) / 173.7178) ^ 2 + (0.054:ℝ) ^ 2) + (4 * X)⁻¹) <
      (173.7178:ℝ) / 200 := by
    exact (Real.sqrt_lt' (by norm_num)).mpr hq_lt
  have h9 : (0:ℝ) <
      Real.sqrt (1 / (((200:ℝ) / 173.7178) ^ 2 + (0.054:ℝ) ^ 2) + (4 * X)⁻¹) :=
    Real.sqrt_pos.mpr hq0
  have h8 : (200:ℝ) / 173.7178 <
      1 / Real.sqrt (1 / (((200:ℝ) / 173.7178) ^ 2 + (0.054:ℝ) ^ 2) + (4 * X)⁻¹) := by
    calc (200:ℝ) / 173.7178 = 1 / ((173.7178:ℝ) / 200) := by norm_num
      _ < _ := one_div_lt_one_div_of_lt h9 h7
  have h10 := (div_lt_iff (by norm_num : (0:ℝ) < 173.7178)).mp h8
  linarith

/-! ## Points-based (`points_based.py`)

The rating state is `Union[float, Tuple[float, List[float]]]` in Python: a
bare total, or a `(total, history)` pair. -/

inductive PointsRating where
  | scalar (total : ℝ)
  | pair (total : ℝ) (history : List ℝ)

/-- The `isinstance(current_rating, tuple) and len(current_rating) == 2`
normalisation used at the top of `calculate_rating` and `expected_outcome`
(`points_based.py` lines 61–65 and 118–126): a 2-tuple is destructured, any
other value is treated as a bare total with empty history. -/
def PointsRating.extract : PointsRating → ℝ × List ℝ
  | .scalar total => (total, [])
  | .pair total history => (total, history)

structure PointsBasedRankingSystem where
  default_points : ℝ
  points_history_weight : ℝ
  rank_points : Option (List ℝ)
  weekly_average_window : ℕ
  bonus_threshold : Option ℝ
  bonus_points : ℝ

/-- `PointsBasedRankingSystem.__init__` (`points_based.py` lines 20–46):
clamps `points_history_weight` into [0, 1] and `weekly_average_window` to at
least 1; everything else is stored unchanged. -/
def PointsBasedRankingSystem.init (default_points : ℝ) (points_history_weight : ℝ)
    (rank_points : Option (List ℝ)) (weekly_average_window : ℕ)
    (bonus_threshold : Option ℝ) (bonus_points : ℝ) : PointsBasedRankingSystem :=
  ⟨default_points, max 0 (min 1 points_history_weight), rank_points,
    max 1 weekly_average_window, bonus_threshold, bonus_points⟩

/-- Python's `int(score)` on a float: truncation toward zero. -/
def pyInt (x : ℝ) : ℤ := if 0 ≤ x then ⌊x⌋ else ⌈x⌉

/-- `PointsBasedRankingSystem.calculate_rating` (`points_based.py` lines
48–103): optional rank-points transform, optional bonus, then the total
accumulates the transformed sum while the history appends the originals. -/
def PointsBasedRankingSystem.calculate_rating (sys : PointsBasedRankingSystem)
    (current_rating : PointsRating) (outcomes : List ℝ) : ℝ × List ℝ :=
  let total_points := current_rating.extract.1
  let points_history := current_rating.extract.2
  if outcomes = [] then (total_points, points_history)
  else
    let processed1 :=
      match sys.rank_points with
      | none => outcomes
      | some rp =>
          outcomes.map fun score =>
            let rank := pyInt score - 1
            if 0 ≤ rank ∧ rank < rp.length then rp.getD rank.toNat 0 else 0
    let processed2 :=
      match sys.bonus_threshold with
      | none => processed1
      | some th => processed1.map fun score =>
          if score > th then score + sys.bonus_points else score
    (total_points + processed2.sum, points_history ++ outcomes)

/-- `history[-window:]` for `window ≥ 1`: the last `window` entries. -/
def takeLast (l : List ℝ) (window : ℕ) : List ℝ := l.drop (l.length - window)

/-- `PointsBasedRankingSystem.expected_outcome` (`points_based.py` lines
105–148). -/
def PointsBasedRankingSystem.expected_outcome (sys : PointsBasedRankingSystem)
    (rating1 rating2 : PointsRating) : ℝ :=
  let total1 := rating1.extract.1
  let history1 := rating1.extract.2
  let total2 := rating2.extract.1
  let history2 := rating2.extract.2
  if sys.points_history_weight = 0 then
    1 / (1 + Real.exp (-(total1 - total2) / 100))
  else
    let recent1 := if history1 = [] then [total1 / 10]
      else takeLast history1 sys.weekly_average_window
    let recent2 := if history2 = [] then [total2 / 10]
      else takeLast history2 sys.weekly_average_window
    let avg_recent1 := if recent1 = [] then 0 else recent1.sum / recent1.length
    let avg_recent2 := if recent2 = [] then 0 else recent2.sum / recent2.length
    let blended1 := (1 - sys.points_history_weight) * total1 +
      sys.points_history_weight * avg_recent1 * 10
    let blended2 := (1 - sys.points_history_weight) * total2 +
      sys.points_history_weight * avg_recent2 * 10
    1 / (1 + Real.exp (-(blended1 - blended2) / 100))

/-- `min(points_history)` for a non-empty list (`points_based.py` line 220). -/
def listMin : List ℝ → ℝ
  | [] => 0
  | h :: t => t.foldl min h

/-- `max(points_history)` for a non-empty list (`points_based.py` line 221). -/
def listMax : List ℝ → ℝ
  | [] => 0
  | h :: t => t.foldl max h

/-- `statistics.stdev`: the sample standard deviation
`sqrt (Σ (x - mean)² / (n - 1))`. -/
def sampleStdev (l : List ℝ) : ℝ :=
  Real.sqrt ((l.map fun x => (x - l.sum / l.length) ^ 2).sum / ((l.length : ℝ) - 1))

structure ProjectionResult where
  projected_points : ℝ
  min_points : ℝ
  max_points : ℝ
  lower_bound : ℝ
  upper_bound : ℝ

/-- `PointsBasedRankingSystem.project_season_finish` (`points_based.py`
lines 170–235). -/
def PointsBasedRankingSystem.project_season_finish (_sys : PointsBasedRankingSystem)
    (current_rating : ℝ × List ℝ) (remaining_events : ℕ)
    (confidence_level : ℝ) : ProjectionResult :=
  let total_points := current_rating.1
  let points_history := current_rating.2
  if points_history = [] then
    ⟨total_points, total_points, total_points, total_points, total_points⟩
  else
    let avg_points := points_history.sum / points_history.length
    let std_dev := if 1 < points_history.length then sampleStdev points_history
      else avg_points * 0.2
    let projected_total := total_points + avg_points * remaining_events
    let z_score : ℝ := if confidence_level = 0.95 then 1.96
      else if confidence_level = 0.90 then 1.645 else 2.576
    let margin := z_score * (std_dev / Real.sqrt (points_history.length : ℝ)) *
      Real.sqrt (remaining_events : ℝ)
    let lower_bound := projected_total - margin
    let upper_bound := projected_total + margin
    let min_points_per_event := if 0 < points_history.length then listMin points_history
      else avg_points * 0.5
    let max_points_per_event := if 0 < points_history.length then listMax points_history
      else avg_points * 1.5
    let min_projected := total_points + min_points_per_event * remaining_events
    let max_projected := total_points + max_points_per_event * remaining_events
    ⟨projected_total, min_projected, max_projected,
      max lower_bound min_projected, min upper_bound max_projected⟩

/-! ### C10 -/

/-- C10: a bare scalar rating `x` is accepted by `calculate_rating` and
`expected_outcome` and treated exactly like the pair `(x, [])`; both
functions are total, so a scalar never raises. -/
theorem points_scalar_state (sys : PointsBasedRankingSystem) (x : ℝ)
    (outcomes : List ℝ) (B : PointsRating) :
    sys.calculate_rating (.scalar x) outcomes = sys.calculate_rating (.pair x []) outcomes ∧
      sys.expected_outcome (.scalar x) B = sys.expected_outcome (.pair x []) B ∧
      sys.expected_outcome B (.scalar x) = sys.expected_outcome B (.pair x []) := by
  refine ⟨?_, ?_, ?_⟩ <;> rfl

/-! ### C6 -/

/-- C6: `expected_outcome(A,B) + expected_outcome(B,A) = 1` — exactly, over
the reals — for Elo at all rating pairs, and for the points-based system at
all state pairs whenever the stored `points_history_weight` is 0. -/
theorem expected_outcome_symmetric :
    (∀ (sys : EloRatingSystem) (r1 r2 : ℝ),
        sys.expected_outcome r1 r2 + sys.expected_outcome r2 r1 = 1) ∧
      (∀ sys : PointsBasedRankingSystem, sys.points_history_weight = 0 →
        ∀ A B : PointsRating,
          sys.expected_outcome A B + sys.expected_outcome B A = 1) := by
  constructor
  · intro sys r1 r2
    unfold EloRatingSystem.expected_outcome
    rw [elo_expected_inv sys r1 r2]
    exact one_div_one_add_add_inv ((10:ℝ) ^ ((r2 - r1) / 400))
      (rpow_pos_of_pos (by norm_num) _)
  · intro sys hw A B
    unfold PointsBasedRankingSystem.expected_outcome
    rw [if_pos hw, if_pos hw]
    have harg : -(B.extract.1 - A.extract.1) / 100 = (A.extract.1 - B.extract.1) / 100 := by
      ring
    have hinv : Real.exp (-(A.extract.1 - B.extract.1) / 100) =
        (Real.exp ((A.extract.1 - B.extract.1) / 100))⁻¹ := by
      rw [← Real.exp_neg]
      ring_nf
    rw [harg, hinv, add_comm]
    exact one_div_one_add_add_inv (Real.exp ((A.extract.1 - B.extract.1) / 100))
      (Real.exp_pos _)

/-! ### C7 -/

/-- The bound-ordering property the spec asserts of a projection result. -/
def ProjectionResult.ordered (p : ProjectionResult) : Prop :=
  p.min_points ≤ p.lower_bound ∧ p.lower_bound ≤ p.projected_points ∧
    p.projected_points ≤ p.upper_bound ∧ p.upper_bound ≤ p.max_points

lemma foldl_min_le_init (t : List ℝ) (a : ℝ) : t.foldl min a ≤ a := by
  induction t generalizing a with
  | nil => simp
  | cons x xs ih =>
    simp only [List.foldl_cons]
    exact le_trans (ih (min a x)) (min_le_left a x)

lemma foldl_min_le_mem : ∀ (t : List ℝ) (a x : ℝ), x ∈ t → t.foldl min a ≤ x
  | y :: ys, a, x, hx => by
    simp only [List.foldl_cons]
    rcases List.mem_cons.mp hx with rfl | hmem
    · exact le_trans (foldl_min_le_init ys (min a x)) (min_le_right a x)
    · exact foldl_min_le_mem ys (min a y) x hmem

lemma foldl_init_le_max (t : List ℝ) (a : ℝ) : a ≤ t.foldl max a := by
  induction t generalizing a with
  | nil => simp
  | cons x xs ih =>
    simp only [List.foldl_cons]
    exact le_trans (le_max_left a x) (ih (max a x))

lemma foldl_mem_le_max : ∀ (t : List ℝ) (a x : ℝ), x ∈ t → x ≤ t.foldl max a
  | y :: ys, a, x, hx => by
    simp only [List.foldl_cons]
    rcases List.mem_cons.mp hx with rfl | hmem
    · exact le_trans (le_max_right a x) (foldl_init_le_max ys (max a x))
    · exact foldl_mem_le_max ys (max a y) x hmem

lemma listMin_le_of_mem (l : List ℝ) (x : ℝ) (h : x ∈ l) : listMin l ≤ x := by
  match l, h with
  | y :: ys, h =>
    unfold listMin
    rcases List.mem_cons.mp h with rfl | hmem
    · exact foldl_min_le_init ys x
    · exact foldl_min_le_mem ys y x hmem

lemma le_listMax_of_mem (l : List ℝ) (x : ℝ) (h : x ∈ l) : x ≤ listMax l := by
  match l, h with
  | y :: ys, h =>
    unfold listMax
    rcases List.mem_cons.mp h with rfl | hmem
    · exact foldl_init_le_max ys x
    · exact foldl_mem_le_max ys y x hmem

lemma mul_length_le_sum (l : List ℝ) (m : ℝ) (hm : ∀ x ∈ l, m ≤ x) :
    m * l.length ≤ l.sum := by
  induction l with
  | nil => simp
  | cons h t ih =>
    simp only [List.length_cons, List.sum_cons]
    push_cast
    have h1 := hm h (List.mem_cons_self h t)
    have h2 := ih fun x hx => hm x (List.mem_cons_of_mem h hx)
    nlinarith [h1, h2]

lemma sum_le_mul_length (l : List ℝ) (m : ℝ) (hm : ∀ x ∈ l, x ≤ m) :
    l.sum ≤ m * l.length := by
  induction l with
  | nil => simp
  | cons h t ih =>
    simp only [List.length_cons, List.sum_cons]
    push_cast
    have h1 := hm h (List.mem_cons_self h t)
    have h2 := ih fun x hx => hm x (List.mem_cons_of_mem h hx)
    nlinarith [h1, h2]

lemma listMin_le_avg (l : List ℝ) (h : l ≠ []) : listMin l ≤ l.sum / l.length := by
  have hn : (0:ℝ) < l.length := by
    exact_mod_cast List.length_pos.mpr h
  rw [le_div_iff hn]
  exact mul_length_le_sum l _ fun x hx => listMin_le_of_mem l x hx

lemma avg_le_listMax (l : List ℝ) (h : l ≠ []) : l.sum / l.length ≤ listMax l := by
  have hn : (0:ℝ) < l.length := by
    exact_mod_cast List.length_pos.mpr h
  rw [div_le_iff hn]
  exact sum_le_mul_length l _ fun x hx => le_listMax_of_mem l x hx

theorem projection_bounds_amended (sys : PointsBasedRankingSystem) (total : ℝ)
    (history : List ℝ) (remaining_events : ℕ) (confidence_level : ℝ)
    (hne : history ≠ [])
    (hok : 2 ≤ history.length ∨ ∀ x ∈ history, 0 ≤ x) :
    (sys.project_season_finish (total, history) remaining_events
        confidence_level).ordered := by
  unfold PointsBasedRankingSystem.project_season_finish ProjectionResult.ordered
  simp only [if_neg hne, if_pos (List.length_pos.mpr hne)]
  set n : ℝ := (history.length : ℝ) with hn
  have hn0 : (0:ℝ) < n := by
    rw [hn]; exact_mod_cast List.length_pos.mpr hne
  have hrem : (0:ℝ) ≤ (remaining_events : ℝ) := Nat.cast_nonneg _
  have hz : (0:ℝ) < (if confidence_level = 0.95 then (1.96:ℝ)
      else if confidence_level = 0.90 then 1.645 else 2.576) := by
    split_ifs <;> norm_num
  have hstd : (0:ℝ) ≤ (if 1 < history.length then sampleStdev history
      else history.sum / n * 0.2) := by
    by_cases hlen : 1 < history.length
    · rw [if_pos hlen]
      exact Real.sqrt_nonneg _
    · rw [if_neg hlen]
      have hnn : ∀ x ∈ history, 0 ≤ x := by
        rcases hok with h2 | h2
        · exact absurd h2 (by omega)
        · exact h2
      have hsum : (0:ℝ) ≤ history.sum := List.sum_nonneg hnn
      have : (0:ℝ) ≤ history.sum / n := div_nonneg hsum hn0.le
      linarith
  have hmargin : (0:ℝ) ≤ (if confidence_level = 0.95 then (1.96:ℝ)
        else if confidence_level = 0.90 then 1.645 else 2.576) *
      ((if 1 < history.length then sampleStdev history
        else history.sum / n * 0.2) / Real.sqrt n) *
      Real.sqrt (remaining_events : ℝ) := by
    apply mul_nonneg (mul_nonneg hz.le (div_nonneg hstd (Real.sqrt_nonneg _)))
      (Real.sqrt_nonneg _)
  have hminavg : listMin history ≤ history.sum / n :=
    listMin_le_avg history hne
  have havgmax : history.sum / n ≤ listMax history :=
    avg_le_listMax history hne
  have hminp : total + listMin history * (remaining_events : ℝ) ≤
      total + history.sum / n * (remaining_events : ℝ) := by
    have := mul_le_mul_of_nonneg_right hminavg hrem
    linarith
  have hmaxp : total + history.sum / n * (remaining_events : ℝ) ≤
      total + listMax history * (remaining_events : ℝ) := by
    have := mul_le_mul_of_nonneg_right havgmax hrem
    linarith
  refine ⟨le_max_right _ _, max_le (by linarith) hminp, le_min (by linarith) hmaxp,
    min_le_right _ _⟩

theorem projection_bounds_amended_witness :
    ([(1:ℝ), 2] ≠ ([] : List ℝ)) ∧
      ((PointsBasedRankingSystem.init 0 0 none 3 none 0).project_season_finish
          (0, [(1:ℝ), 2]) 1 0.95).ordered :=
  ⟨by simp,
    projection_bounds_amended (PointsBasedRankingSystem.init 0 0 none 3 none 0) 0
      [(1:ℝ), 2] 1 0.95 (by simp) (Or.inl (by norm_num))⟩

theorem projection_bounds_cex :
    ¬ ((PointsBasedRankingSystem.init 0 0 none 3 none 0).project_season_finish
        (0, [(-10 : ℝ)]) 1 0.95).ordered := by
  unfold PointsBasedRankingSystem.project_season_finish ProjectionResult.ordered
  norm_num [listMin, listMax, Real.sqrt_one]

/-! ## Registry (`registry.py`)

`RatingSystemRegistry._registry` is a dict from lower-cased name to
constructor; it is modelled as an association list whose values are
abstract (the registered constructors).  `register` stores under
`name.lower()`, and `get` looks up `name.lower()`, so the keys held in the
list are the case-folded registration names. -/

/-- `RatingSystemRegistry.get` (`registry.py` lines 24–39): case-insensitive
lookup returning `none` when the name is not registered. -/
def RatingSystemRegistry.get {α : Type} (registry : List (String × α))
    (name : String) : Option α :=
  (registry.find? fun p => p.1 == name.toLower).map Prod.snd

/-- `RatingSystemRegistry.list_available` (`registry.py` lines 41–49). -/
def RatingSystemRegistry.list_available {α : Type}
    (registry : List (String × α)) : List String :=
  registry.map Prod.fst

/-- `get_rating_system` (`registry.py` lines 52–71): the factory returns the
resolved system, or fails with the message naming the unsupported system and
listing every registered name. -/
def get_rating_system {α : Type} (registry : List (String × α))
    (system_name : String) : Except String α :=
  match RatingSystemRegistry.get registry system_name with
  | some system => .ok system
  | none => .error ("Unsupported rating system: " ++ system_name ++
      ". Available systems: " ++
      String.intercalate ", " (RatingSystemRegistry.list_available registry))

/-! ### C9 -/

/-- C9: for a name whose case-folded form is not a registered key, the
factory fails with the error message that names the unsupported system and
lists all registered names; for a registered name it returns a constructed
system and does not fail. -/
theorem get_rating_system_spec {α : Type} (registry : List (String × α))
    (system_name : String) :
    ((∀ p ∈ registry, p.1 ≠ system_name.toLower) →
        get_rating_system registry system_name =
          .error ("Unsupported rating system: " ++ system_name ++
            ". Available systems: " ++
            String.intercalate ", " (registry.map Prod.fst))) ∧
      ((∃ p ∈ registry, p.1 = system_name.toLower) →
        ∃ system, get_rating_system registry system_name = .ok system) := by
  constructor
  · intro hnone
    have hfind : (registry.find? fun p => p.1 == system_name.toLower) = none := by
      rw [List.find?_eq_none]
      intro p hp
      simpa using hnone p hp
    unfold get_rating_system RatingSystemRegistry.get RatingSystemRegistry.list_available
    rw [hfind]
    rfl
  · intro hsome
    have hfind : (registry.find? fun p => p.1 == system_name.toLower).isSome := by
      rw [List.find?_isSome]
      obtain ⟨p, hp, heq⟩ := hsome
      exact ⟨p, hp, by simpa using heq⟩
    obtain ⟨p, hp⟩ := Option.isSome_iff_exists.mp hfind
    refine ⟨p.2, ?_⟩
    unfold get_rating_system RatingSystemRegistry.get
    rw [hp]
    rfl

/-! ### C8 -/

/-- C8 (counterexample): `EloRatingSystem(-5)` and `Glicko2RatingSystem(-1)`
are constructed without any error — the out-of-range K-factor and tau are
stored verbatim and the instances are fully usable (`__init__` performs no
validation in either class). -/
theorem construction_accepts_out_of_range_cex :
    (EloRatingSystem.init (-5) 1500).k_factor = -5 ∧
      (EloRatingSystem.init (-5) 1500).calculate_rating 1500 [(1500, 1)] = 1497.5 ∧
      (Glicko2RatingSystem.init (-1)).tau = -1 ∧
      (Glicko2RatingSystem.init (-1)).calculate_rating (1500, 200, 0.06) [] =
        (1500, min (Real.sqrt (200 ^ 2 + 0.06 ^ 2)) 350, 0.06) := by
  refine ⟨rfl, ?_, rfl, ?_⟩
  · unfold EloRatingSystem.calculate_rating
    simp [elo_expected_self, EloRatingSystem.init]
    norm_num
  · simp [Glicko2RatingSystem.calculate_rating, Glicko2RatingSystem.init]

/-- C8 (amended): construction never rejects a configuration value — both
constructors store whatever K-factor or tau they are given, including
negative and non-positive values, and return a usable instance. -/
theorem construction_unvalidated (k d tau : ℝ) :
    (EloRatingSystem.init k d).k_factor = k ∧
      (EloRatingSystem.init k d).default_rating = d ∧
      (Glicko2RatingSystem.init tau).tau = tau ∧
      ∀ r : ℝ, (EloRatingSystem.init k d).calculate_rating r [] = r ∧
        (Glicko2RatingSystem.init tau).calculate_rating (r, 350, 0.06) [] =
          (r, min (Real.sqrt (350 ^ 2 + 0.06 ^ 2)) 350, 0.06) := by
  refine ⟨rfl, rfl, rfl, fun r => ⟨?_, ?_⟩⟩
  · simp [EloRatingSystem.calculate_rating]
  · simp [Glicko2RatingSystem.calculate_rating, Glicko2RatingSystem.init]
